import Mathlib

/-!
# Verification of the OmniParser task-cancellation and session-lifecycle core

This file gives a shallow embedding, in Lean 4, of the task-session registry,
the cooperative cancellation-token protocol, the stop handler, the agent-loop
state machine of `omnitool/gradio/loop.py` (`sampling_loop_sync`), and the
relevant fragments of `omnitool/gradio/agentic_rpc.py` (`handle_stop_request`,
`handle_rpc_request`, `output_callback`), together with theorems settling the
stated behavioural properties of these components.

Modelling conventions:
* Python dicts used as records become Lean structures; dicts used as string
  keyed mappings become association lists `List (String × _)` preserving
  insertion order (Python 3.7+ dict order).
* Python truthiness of an optional string (`None` or `""` are falsy) is the
  `truthy` predicate below; truthiness of a list is nonemptiness.
* The mutable cancellation flags, which a concurrent stop handler may flip at
  any moment, are modelled by a time-indexed environment: the loop's k-th
  emitted event happens at time k, and each cancellation check reads the
  token state `tokAt t` at its own time `t`.
* Collaborator calls (screen parse, decision model, action executor) are
  oracles indexed by iteration number, part of the loop environment.
-/

/-- Python truthiness of an optional string value: `None` and `""` are falsy. -/
def truthy : Option String → Bool
  | none => false
  | some s => !(s == "")

/-- The composite task key `f"{user_id}_{prompt_id}"` used for token lookup
(`loop.py` line 67, `agentic_rpc.py` line 183). -/
def taskKey (user_id prompt_id : String) : String := user_id ++ "_" ++ prompt_id

/-- Dict read `d.get(k)` on a string-keyed association list. -/
def getKV {β : Type} : List (String × β) → String → Option β
  | [], _ => none
  | kv :: rest, k => if kv.1 == k then some kv.2 else getKV rest k

/-- A per-task cancellation token: the dict `{"stop": bool}` stored in
`app_state["task_tokens"]`. -/
structure TaskTok where
  stop : Bool
  deriving DecidableEq, Repr

/-- The cancellation-token dict passed into `sampling_loop_sync`
(`agentic_rpc.py` line 390 creates `{"stop": False}`). The `task_tokens`
field models the optional `"task_tokens"` key (absent on the token the RPC
handler creates, hence `cancellation_token.get("task_tokens", {})` yields the
empty dict there). The dict always carries the `"stop"` key, so the Python
truthiness test `cancellation_token and ...` is always true and
`cancellation_token.get("stop")` is the `stop` field. -/
structure CancToken where
  stop : Bool
  task_tokens : Option (List (String × TaskTok))
  deriving DecidableEq, Repr

/-- The cancellation check repeated at every phase boundary of
`sampling_loop_sync` (`loop.py` lines 68-72, 119-124, 128-133, ...):
`(cancellation_token and cancellation_token.get("stop")) or
 (task_key in task_tokens and task_tokens[task_key].get("stop"))`
with `task_tokens = cancellation_token.get("task_tokens", {})`. -/
def checkStop (tok : CancToken) (key : String) : Bool :=
  let task_tokens := tok.task_tokens.getD []
  tok.stop || (match getKV task_tokens key with
    | some tt => tt.stop
    | none => false)

/-- Dict write `d[k] = v` on a string-keyed association list: replaces the
existing entry in place, else appends (Python dict update semantics). -/
def setKV {β : Type} (l : List (String × β)) (k : String) (v : β) :
    List (String × β) :=
  if (getKV l k).isSome then
    l.map (fun kv => if kv.1 == k then (k, v) else kv)
  else l ++ [(k, v)]

/-- Dict deletion `del d[k]` (the key is assumed present; on an association
list we drop every binding of the key). -/
def delKV {β : Type} (l : List (String × β)) (k : String) :
    List (String × β) :=
  l.filter (fun kv => !(kv.1 == k))

/-- The process-wide mutable `app_state` of `agentic_rpc.py`, restricted to
the fields the session registry, stop handler and loop driver touch. -/
structure AppState where
  stop : Bool
  cancellation_token : Option CancToken
  task_tokens : Option (List (String × TaskTok))
  active_sessions : List (String × String)
  deriving DecidableEq, Repr

/-- A stop-request payload `{user_id?, prompt_id?, stop_all?, force?}`
(`handle_stop_request` docstring). `stop_all` defaults to `False` and
`force` to `True` (`agentic_rpc.py` lines 154-155). -/
structure StopMsg where
  user_id : Option String := none
  prompt_id : Option String := none
  stop_all : Bool := false
  force : Bool := true
  deriving DecidableEq, Repr

/-- A message published on a per-task status topic
`com.hertzai.hevolve.action.{pid}.{uid}`: we record the status kind and the
task identity. -/
structure PubEv where
  kind : String
  uid : String
  pid : String
  deriving DecidableEq, Repr

/-- The observable result of `handle_stop_request`: the returned status, the
`stopped_tasks` list of the response, the updated `app_state`, the
notifications published, and (instrumentation for stating properties) the
`tasks_to_stop` list the resolution phase produced. -/
structure StopRes where
  status : String
  stoppedTasks : List (String × String)
  state : AppState
  events : List PubEv
  resolved : List (String × String)
  deriving DecidableEq, Repr

/-- Resolution phase of `handle_stop_request` (`agentic_rpc.py` lines
160-229): decides which tasks to stop and sets the cancellation flags.
Returns `none` for the invalid request (neither `stop_all` nor a truthy
`user_id`), else the updated state, the `tasks_to_stop` list, and the value
of the local `prompt_id` variable after the optional registry lookup (this
local is consulted again by the cleanup phase at line 262). -/
def stopResolve (st : AppState) (msg : StopMsg) :
    Option (AppState × List (String × String) × Option String) :=
  if msg.stop_all then
    -- lines 163-173: set the global flags; per-task tokens are NOT touched
    let st1 : AppState :=
      { st with
        stop := true
        cancellation_token :=
          st.cancellation_token.map (fun tok => { tok with stop := true }) }
    some (st1, st.active_sessions, msg.prompt_id)
  else if truthy msg.user_id then
    let uid := msg.user_id.getD ""
    -- lines 177-179: look up prompt_id in active_sessions when absent
    let pid0 :=
      if !(truthy msg.prompt_id) && (getKV st.active_sessions uid).isSome
      then getKV st.active_sessions uid
      else msg.prompt_id
    if truthy pid0 then
      -- lines 181-206: explicit (or looked-up) prompt: set the per-task
      -- token, the shared token and the global stop flag
      let pid := pid0.getD ""
      let tts := st.task_tokens.getD []
      let st1 : AppState :=
        { st with
          stop := true
          cancellation_token :=
            st.cancellation_token.map (fun tok => { tok with stop := true })
          task_tokens := some (setKV tts (taskKey uid pid) ⟨true⟩) }
      some (st1, [(uid, pid)], pid0)
    else
      -- lines 208-226: stop every task of this user
      let user_tasks := st.active_sessions.filter (fun kv => kv.1 == uid)
      let tts := st.task_tokens.getD []
      let tts2 := user_tasks.foldl
        (fun acc up => setKV acc (taskKey up.1 up.2) ⟨true⟩) tts
      let st1 : AppState :=
        { st with
          stop := true
          cancellation_token :=
            st.cancellation_token.map (fun tok => { tok with stop := true })
          task_tokens := some tts2 }
      some (st1, user_tasks, pid0)
  else none

/-- One step of the per-task "stopping" notification and session cleanup loop
(`agentic_rpc.py` lines 240-266): publish `stopping`, record the task as
stopped, and remove the registry entry when its prompt matches or no specific
prompt was requested. Publishing is modelled as always succeeding. -/
def stopNotifyStep (pidLocal : Option String)
    (acc : AppState × List (String × String) × List PubEv)
    (up : String × String) :
    AppState × List (String × String) × List PubEv :=
  let (s, stopped, evs) := acc
  let evs2 := evs ++ [⟨"stopping", up.1, up.2⟩]
  let stopped2 := stopped ++ [up]
  let s2 :=
    if (getKV s.active_sessions up.1).isSome then
      if getKV s.active_sessions up.1 == some up.2 || !(truthy pidLocal) then
        { s with active_sessions := delKV s.active_sessions up.1 }
      else s
    else s
  (s2, stopped2, evs2)

/-- The stop handler `handle_stop_request` (`agentic_rpc.py` lines 131-305),
as a pure transformer of the application state. The grace delay
(`time.sleep(0.5)`, line 270) has no effect on the state and is omitted. -/
def handleStopRequest (st : AppState) (msg : StopMsg) : StopRes :=
  match stopResolve st msg with
  | none =>
    -- lines 227-229: invalid request, no side effects
    ⟨"error", [], st, [], []⟩
  | some (st1, tasks, pidLocal) =>
    if tasks.isEmpty then
      -- lines 231-233: nothing matched
      ⟨"warning", [], st1, [], tasks⟩
    else
      let r := tasks.foldl (stopNotifyStep pidLocal) (st1, [], [])
      let st2 := r.1
      let stoppedTasks := r.2.1
      let evs1 := r.2.2
      -- lines 272-285: final `stopped` notifications
      let evs2 := evs1 ++ stoppedTasks.map (fun up => ⟨"stopped", up.1, up.2⟩)
      -- lines 287-291: reset the global flag only on a non-forced stop that
      -- notified every resolved task
      let st3 :=
        if !msg.force && (stoppedTasks.length == tasks.length) then
          { st2 with stop := false }
        else st2
      ⟨"success", stoppedTasks, st3, evs2, tasks⟩

/-- The unregister step at the end of `handle_rpc_request` (`agentic_rpc.py`
lines 669-671):
`if user_id and app_state["active_sessions"]: del app_state["active_sessions"][user_id]`.
`del` raises `KeyError` when the dict is nonempty but lacks the key; the
guard only tests that the dict is nonempty. -/
def unregisterStep (active_sessions : List (String × String))
    (user_id : Option String) : Except String (List (String × String)) :=
  if truthy user_id && !active_sessions.isEmpty then
    let uid := user_id.getD ""
    if (getKV active_sessions uid).isSome then
      Except.ok (delKV active_sessions uid)
    else Except.error "KeyError"
  else Except.ok active_sessions

/-- An inbound instruction payload, restricted to the fields the acceptance
prefix of `handle_rpc_request` consults. -/
structure RpcMsg where
  user_id : Option String := none
  prompt_id : Option String := none
  instruction : Option String := none
  enhanced_instruction : Option String := none
  deriving DecidableEq, Repr

/-- Early outcome of the instruction-acceptance prefix: an immediate error
response, or fall-through to validation and loop launch. -/
inductive RpcPrefixOut
  | errorRes (message : String)
  | proceed
  deriving DecidableEq, Repr

/-- Result of the acceptance prefix: outcome, the updated `active_sessions`
registry, and whatever was published on the task topic so far. -/
structure RpcPrefixRes where
  out : RpcPrefixOut
  sessions : List (String × String)
  published : List PubEv
  deriving DecidableEq, Repr

/-- The acceptance prefix of `handle_rpc_request` (`agentic_rpc.py` lines
338-370): extract fields (`prompt_id` defaults to `"0"`), apply the
`enhanced_instruction` override, register the active session for a truthy
`user_id` (line 355 — before any validation), then return an immediate error
when `user_id` or the instruction is missing. The `started` publication
happens later (line 406), so nothing is published on these error paths. -/
def handleRpcPrefix (sessions : List (String × String)) (msg : RpcMsg) :
    RpcPrefixRes :=
  let prompt_id := msg.prompt_id.getD "0"
  let instruction :=
    if truthy msg.enhanced_instruction then
      some ("[REUSING PREVIOUS SUCCESSFUL EXECUTING]\n"
        ++ msg.enhanced_instruction.getD "")
    else msg.instruction
  let sessions1 :=
    if truthy msg.user_id then setKV sessions (msg.user_id.getD "") prompt_id
    else sessions
  if !(truthy msg.user_id) then
    ⟨RpcPrefixOut.errorRes "No user_id provided", sessions1, []⟩
  else if !(truthy instruction) then
    ⟨RpcPrefixOut.errorRes "No instruction provided", sessions1, []⟩
  else ⟨RpcPrefixOut.proceed, sessions1, []⟩

/-- Abstract content of a message accumulated by the loop: the initial user
instruction, the structured screen-information block the Anthropic variant
appends (`loop.py` lines 143-145), and the tool-result message it appends
after an iteration (`loop.py` line 175). -/
inductive AMsg
  | instr (text : String)
  | screenInfo (text : String)
  | toolResult (content : List String)
  deriving DecidableEq, Repr

/-- How the generator-driving `while True` of `handle_rpc_request`
(`agentic_rpc.py` lines 552-578) exited. -/
inductive DriveExit
  | stoppedPre
  | genNone
  | stoppedPost
  | exn
  | fuelOut
  deriving DecidableEq, Repr

/-- Environment of the generator-driving loop: the global and per-request
stop flags as read at each check (time-indexed, since the Flask stop handler
mutates them concurrently), and the overall result of the sampling-loop
generator: an exception, `None` (the loop cancelled itself), or the final
message list. -/
structure DriveEnv where
  appStop : Nat → Bool
  tokStop : Nat → Bool
  genResult : Except String (Option (List AMsg))

/-- The driving loop (`agentic_rpc.py` lines 552-578): check the stop flags
before yielding to the generator, break on a `None` result, re-check the
flags after the yield. -/
def driveLoop (env : DriveEnv) : Nat → Nat → DriveExit
  | 0, _ => DriveExit.fuelOut
  | fuel+1, t =>
    if env.appStop t || env.tokStop t then DriveExit.stoppedPre
    else
      match env.genResult with
      | Except.error _ => DriveExit.exn
      | Except.ok none => DriveExit.genNone
      | Except.ok (some _) =>
        if env.appStop (t+1) || env.tokStop (t+1) then DriveExit.stoppedPost
        else driveLoop env fuel (t+2)

/-- A terminal-status publication of the execution path of
`handle_rpc_request`. -/
inductive TailEv
  | completed
  | errorEv
  deriving DecidableEq, Repr

/-- The tail of `handle_rpc_request` after the driving loop (`agentic_rpc.py`
lines 579-684): an exception in the sampling loop publishes one `error` event
and returns (lines 583-603); every other exit falls through the JSON dump to
the unconditional `completed` publication (lines 643-656). A `fuelOut`
(still-running) drive has published nothing yet. -/
def handleRpcTail (env : DriveEnv) (fuel : Nat) : List TailEv :=
  match driveLoop env fuel 0 with
  | DriveExit.exn => [TailEv.errorEv]
  | DriveExit.fuelOut => []
  | _ => [TailEv.completed]

/-! ## The output callback (`agentic_rpc.py` lines 421-519)

The callback processes one rendered message string.  We embed Python strings
as `List Char` so that every operation is a structural recursion; `chars`
converts a Lean string literal. -/

/-- Characters of a string literal. -/
def chars (s : String) : List Char := s.toList

/-- Python `\w` on the ASCII range: letters, digits and underscore. -/
def isWordChar (c : Char) : Bool := c.isAlphanum || c == '_'

/-- Python `str.strip()`: remove leading and trailing whitespace. -/
def stripChars (l : List Char) : List Char :=
  ((l.dropWhile Char.isWhitespace).reverse.dropWhile Char.isWhitespace).reverse

/-- Python `s.split(":", 1)[1]`: everything after the first colon (callers
guarantee a colon is present). -/
def afterColon : List Char → List Char
  | [] => []
  | c :: rest => if c == ':' then rest else afterColon rest

/-- Python `s.upper()` on the ASCII range. -/
def upperChars (l : List Char) : List Char := l.map Char.toUpper

/-- The regular-expression match
`re.match(r'Status:\s*(\w+)(.*)', content, re.DOTALL)` (`agentic_rpc.py`
line 475).  Because `\s` and `\w` are disjoint, the greedy match is the
unique one: group 1 is the maximal word-character run after the maximal
whitespace run following the literal `Status:`; group 2 (`.` matching
newlines under DOTALL) is the remainder.  No match when no word character
follows. -/
def matchStatus (content : List Char) : Option (List Char × List Char) :=
  if (chars "Status:").isPrefixOf content then
    let rest2 := (content.drop 7).dropWhile Char.isWhitespace
    let w := rest2.takeWhile isWordChar
    if w.isEmpty then none else some (w, rest2.drop w.length)
  else none

/-- Content of an extracted record: a raw string, or (for a next-action
record that parses) a JSON value, represented opaquely by the parser
output. -/
inductive ContentV
  | str (s : List Char)
  | json (j : String)
  deriving DecidableEq, Repr

/-- An Extracted Response Record (sans timestamp): `{type, content}`. -/
structure ERec where
  type_ : String
  content : ContentV
  deriving DecidableEq, Repr

/-- Observable effect of one `output_callback` invocation: the entry appended
to `assistant_responses`, the record appended to `extracted_responses` (the
array persisted as the session JSON's `messages`), and the `in_progress`
events published. -/
structure CbOut where
  appendedAssistant : Option (List Char)
  extractedRec : Option ERec
  published : List ERec
  deriving DecidableEq, Repr

/-- The next-action content transformation (`agentic_rpc.py` lines 460-465):
when the content looks like a dict (`startswith("{") and endswith("}")`), try
`json.loads`, keeping the string on failure. The JSON parser is an external
collaborator, passed as an oracle. -/
def naContent (jsonParse : List Char → Option String) (content : List Char) :
    ContentV :=
  if (chars "\x7b").isPrefixOf content && (chars "\x7d").isSuffixOf content
  then
    match jsonParse content with
    | some j => ContentV.json j
    | none => ContentV.str content
  else ContentV.str content

/-- Helper: the callback's extraction-and-publication step (`agentic_rpc.py`
lines 495-517): append one record to `extracted_responses` and publish it as
a single `in_progress` event. -/
def cbExtract (rendered : List Char) (t : String) (c : ContentV) : CbOut :=
  ⟨some rendered, some ⟨t, c⟩, [⟨t, c⟩]⟩

/-- The body of `output_callback` from the rendered message onward
(`agentic_rpc.py` lines 447-519): empty renderings return immediately; every
other rendering is appended to `assistant_responses`; `Analysis:` and
`Next action:` renderings are extracted — except that an analysis whose
content carries a `Status:` line whose status word uppercases to `FAILED` is
skipped (neither recorded nor published), while a recognised or unrecognised
non-FAILED status is extracted with the status prefix stripped. -/
def outputCallbackStep (jsonParse : List Char → Option String)
    (rendered : List Char) : CbOut :=
  if rendered.isEmpty then ⟨none, none, []⟩
  else if (chars "Analysis:").isPrefixOf rendered then
    let content := stripChars (afterColon rendered)
    if (chars "Status:").isPrefixOf content then
      match matchStatus content with
      | some (w, rest) =>
        if upperChars w == chars "FAILED" then ⟨some rendered, none, []⟩
        else cbExtract rendered "analysis" (ContentV.str (stripChars rest))
      | none => cbExtract rendered "analysis" (ContentV.str content)
    else cbExtract rendered "analysis" (ContentV.str content)
  else if (chars "Next action:").isPrefixOf rendered then
    let content := stripChars (afterColon rendered)
    cbExtract rendered "next_action" (naContent jsonParse content)
  else ⟨some rendered, none, []⟩

/-! ## The agent loop `sampling_loop_sync` (`loop.py` lines 42-248)

Both backend variants are embedded as small-step machines emitting an event
trace.  Each emitted event advances the clock by one, and every cancellation
check reads the token state at its own time, which models the concurrent
stop handler flipping flags between any two events. -/

/-- Trace events of the loop: a cancellation check (recording the value it
read), the screen-parse call, the decision-model call, one executor sub-step,
and a yielded message. -/
inductive Ev
  | check (b : Bool)
  | observe
  | decide
  | substep
  | yieldMsg (m : String)
  deriving DecidableEq, Repr

/-- One item produced by the executor generator in the omniparser variant
(`loop.py` lines 231-243): a 2-tuple whose second component replaces
`tool_result_content`, a non-tuple item, or an exception raised while
producing the item (which breaks out of the executor loop). -/
inductive ExecItem
  | tup (trc : List String)
  | nontup
  | err
  deriving DecidableEq, Repr

/-- Environment of one `sampling_loop_sync` execution: the shared token's
state at each instant, and the collaborator oracles, indexed by iteration
number: the parsed screen info, the Anthropic executor's items
(message, tool_result_content), the omniparser actor's result
(opaque tool-use value, `vlm_response_json` as an optional dict), and
the omniparser executor's items. -/
structure LoopEnv where
  tokAt : Nat → CancToken
  screenInfo : Nat → String
  aExecItems : Nat → List (String × List String)
  oActorOut : Nat → Nat × Option (List (String × String))
  oExecItems : Nat → List ExecItem

/-- The flag value a cancellation check performed at time `t` reads. -/
def stopOf (env : LoopEnv) (key : String) (t : Nat) : Bool :=
  checkStop (env.tokAt t) key

/-- Terminal outcome of either variant's loop: `returnValue(None)` on
cancellation, or the message history on completion. -/
inductive MOut
  | cancelled
  | done (msgs : List AMsg)
  deriving DecidableEq, Repr

/-- Generic runner: iterate a small-step function, accumulating the event
trace and advancing the clock by the number of events emitted; `none` means
the fuel ran out with the machine still running. -/
def runM {σ ω : Type} (step : Nat → σ → List Ev × (σ ⊕ ω)) :
    Nat → Nat → σ → List Ev × Option ω
  | 0, _, _ => ([], none)
  | fuel+1, t, s =>
    match step t s with
    | (es, Sum.inr out) => (es, some out)
    | (es, Sum.inl s2) =>
      let r := runM step fuel (t + es.length) s2
      (es ++ r.1, r.2)

/-- Control locations of the Anthropic variant's iteration (`loop.py` lines
126-175), in source order: top-of-iteration check (129), screen parse (134),
post-observation check (137) followed by the screen-info append (143-145),
pre-model check (148), model call (154), post-model check (157), then the
executor `for` loop — each item is produced by a generator advance (163),
checked (165) and yielded (170) — and finally the `tool_result_content`
test (172) with the tool-result append (175). -/
inductive APc
  | chkTop
  | obsPh
  | chkPostObs
  | chkPreModel
  | decPh
  | chkPostModel
  | execStep (items : List (String × List String))
  | chkItem (m : String) (items : List (String × List String))
  | yieldItem (m : String) (items : List (String × List String))
  | trcTest
  deriving DecidableEq, Repr

/-- State of the Anthropic variant: iteration counter, accumulated message
history, current `tool_result_content` (initially `None`, modelled `[]`, and
retained across iterations), and control location. -/
structure ASt where
  i : Nat
  msgs : List AMsg
  trc : List String
  pc : APc
  deriving Repr

/-- Small step of the Anthropic variant. -/
def aStep (env : LoopEnv) (key : String) (t : Nat) (s : ASt) :
    List Ev × (ASt ⊕ MOut) :=
  match s.pc with
  | APc.chkTop =>
    let b := stopOf env key t
    if b then ([Ev.check b], Sum.inr MOut.cancelled)
    else ([Ev.check b], Sum.inl ⟨s.i, s.msgs, s.trc, APc.obsPh⟩)
  | APc.obsPh => ([Ev.observe], Sum.inl ⟨s.i, s.msgs, s.trc, APc.chkPostObs⟩)
  | APc.chkPostObs =>
    let b := stopOf env key t
    if b then ([Ev.check b], Sum.inr MOut.cancelled)
    else ([Ev.check b],
      Sum.inl ⟨s.i, s.msgs ++ [AMsg.screenInfo (env.screenInfo s.i)], s.trc,
        APc.chkPreModel⟩)
  | APc.chkPreModel =>
    let b := stopOf env key t
    if b then ([Ev.check b], Sum.inr MOut.cancelled)
    else ([Ev.check b], Sum.inl ⟨s.i, s.msgs, s.trc, APc.decPh⟩)
  | APc.decPh => ([Ev.decide], Sum.inl ⟨s.i, s.msgs, s.trc, APc.chkPostModel⟩)
  | APc.chkPostModel =>
    let b := stopOf env key t
    if b then ([Ev.check b], Sum.inr MOut.cancelled)
    else ([Ev.check b],
      Sum.inl ⟨s.i, s.msgs, s.trc, APc.execStep (env.aExecItems s.i)⟩)
  | APc.execStep items =>
    match items with
    | [] => ([], Sum.inl ⟨s.i, s.msgs, s.trc, APc.trcTest⟩)
    | (m, trc2) :: rest =>
      ([Ev.substep], Sum.inl ⟨s.i, s.msgs, trc2, APc.chkItem m rest⟩)
  | APc.chkItem m rest =>
    let b := stopOf env key t
    if b then ([Ev.check b], Sum.inr MOut.cancelled)
    else ([Ev.check b], Sum.inl ⟨s.i, s.msgs, s.trc, APc.yieldItem m rest⟩)
  | APc.yieldItem m rest =>
    ([Ev.yieldMsg m], Sum.inl ⟨s.i, s.msgs, s.trc, APc.execStep rest⟩)
  | APc.trcTest =>
    if s.trc.isEmpty then ([], Sum.inr (MOut.done s.msgs))
    else
      ([], Sum.inl ⟨s.i + 1, s.msgs ++ [AMsg.toolResult s.trc], s.trc,
        APc.chkTop⟩)

/-- Completion detection of the omniparser variant (`loop.py` lines
209-214): the response must be a truthy dict (a non-dict or empty dict is
skipped), and its `"Next Action"` must be the sentinel `"None"`, absent, or
falsy. Values are modelled as strings; `none` models a `None`/non-dict
response. -/
def complSignal (j : Option (List (String × String))) : Bool :=
  match j with
  | none => false
  | some l =>
    !l.isEmpty &&
      (match getKV l "Next Action" with
       | some v => v == "None" || v == ""
       | none => true)

/-- Control locations of the omniparser variant's iteration (`loop.py` lines
177-248), in source order: top check (181), screen parse (188), post
observation check (191), actor call (197), post-model check (200), the
completion detection (209-214), then the executor `while` — a check (226)
precedes every generator advance (233) — and the `tool_result_content` test
(247). -/
inductive OPc
  | chkTop
  | obsPh
  | chkPostObs
  | decPh
  | chkPostDec
  | complTest
  | chkExec (items : List ExecItem)
  | execNext (items : List ExecItem)
  | trcTest
  deriving DecidableEq, Repr

/-- State of the omniparser variant: iteration counter, current
`tool_result_content` (retained across iterations), message history (this
variant never appends to it), and control location. -/
structure OSt where
  i : Nat
  trc : List String
  msgs : List AMsg
  pc : OPc
  deriving Repr

/-- Small step of the omniparser variant. -/
def oStep (env : LoopEnv) (key : String) (t : Nat) (s : OSt) :
    List Ev × (OSt ⊕ MOut) :=
  match s.pc with
  | OPc.chkTop =>
    let b := stopOf env key t
    if b then ([Ev.check b], Sum.inr MOut.cancelled)
    else ([Ev.check b], Sum.inl ⟨s.i, s.trc, s.msgs, OPc.obsPh⟩)
  | OPc.obsPh => ([Ev.observe], Sum.inl ⟨s.i, s.trc, s.msgs, OPc.chkPostObs⟩)
  | OPc.chkPostObs =>
    let b := stopOf env key t
    if b then ([Ev.check b], Sum.inr MOut.cancelled)
    else ([Ev.check b], Sum.inl ⟨s.i, s.trc, s.msgs, OPc.decPh⟩)
  | OPc.decPh => ([Ev.decide], Sum.inl ⟨s.i, s.trc, s.msgs, OPc.chkPostDec⟩)
  | OPc.chkPostDec =>
    let b := stopOf env key t
    if b then ([Ev.check b], Sum.inr MOut.cancelled)
    else ([Ev.check b], Sum.inl ⟨s.i, s.trc, s.msgs, OPc.complTest⟩)
  | OPc.complTest =>
    if complSignal (env.oActorOut s.i).2 then ([], Sum.inr (MOut.done s.msgs))
    else ([], Sum.inl ⟨s.i, s.trc, s.msgs, OPc.chkExec (env.oExecItems s.i)⟩)
  | OPc.chkExec items =>
    let b := stopOf env key t
    if b then ([Ev.check b], Sum.inr MOut.cancelled)
    else ([Ev.check b], Sum.inl ⟨s.i, s.trc, s.msgs, OPc.execNext items⟩)
  | OPc.execNext items =>
    match items with
    | [] => ([], Sum.inl ⟨s.i, s.trc, s.msgs, OPc.trcTest⟩)
    | ExecItem.tup trc2 :: rest =>
      ([Ev.substep], Sum.inl ⟨s.i, trc2, s.msgs, OPc.chkExec rest⟩)
    | ExecItem.nontup :: rest =>
      ([Ev.substep], Sum.inl ⟨s.i, s.trc, s.msgs, OPc.chkExec rest⟩)
    | ExecItem.err :: _ =>
      ([Ev.substep], Sum.inl ⟨s.i, s.trc, s.msgs, OPc.trcTest⟩)
  | OPc.trcTest =>
    if s.trc.isEmpty then ([], Sum.inr (MOut.done s.msgs))
    else ([], Sum.inl ⟨s.i + 1, s.trc, s.msgs, OPc.chkTop⟩)

/-- The value `tool_result_content` holds after the omniparser executor loop
consumed the given items starting from the given value (`.err` breaks out
early, leaving the value as it stood). -/
def execTrcAfter : List ExecItem → List String → List String
  | [], trc => trc
  | ExecItem.tup trc2 :: rest, _ => execTrcAfter rest trc2
  | ExecItem.nontup :: rest, trc => execTrcAfter rest trc
  | ExecItem.err :: _, trc => trc

/-- The model names dispatching to the omniparser variant (`loop.py`
line 177). -/
def omniModels : List String :=
  ["omniparser + gpt-4o", "omniparser + o1", "omniparser + o3-mini",
   "omniparser + R1", "omniparser + qwen2.5vl"]

/-- The model name dispatching to the Anthropic variant (`loop.py`
line 126). -/
def claudeModel : String := "claude-3-5-sonnet-20241022"

/-- Overall outcome of `sampling_loop_sync`: `returnValue(None)` on
cancellation, the message history on completion, the `ValueError` for an
unsupported model name, or fuel exhaustion of the embedding. -/
inductive SLOut
  | cancelled
  | done (msgs : List AMsg)
  | modelError
  | fuelOut
  deriving DecidableEq, Repr

/-- Lift a machine outcome. -/
def toSL : Option MOut → SLOut
  | none => SLOut.fuelOut
  | some MOut.cancelled => SLOut.cancelled
  | some (MOut.done m) => SLOut.done m

/-- The whole of `sampling_loop_sync` (`loop.py` lines 42-248): the check at
line 69, the actor construction — raising `ValueError` for an unsupported
model (line 105) — the check at line 121, then the variant loop selected by
the model name. The first argument models the process-wide
`app_state["task_tokens"]` mapping that exists in the worker process; the
loop receives only `cancellation_token` and never reads the process-wide
state, which the argument makes checkable. -/
def samplingLoopSync (appTaskTokens : Nat → List (String × TaskTok))
    (env : LoopEnv) (model user_id prompt_id : String) (msgs0 : List AMsg)
    (fuel : Nat) : List Ev × SLOut :=
  let key := taskKey user_id prompt_id
  if stopOf env key 0 then ([Ev.check true], SLOut.cancelled)
  else if !(model == claudeModel || omniModels.contains model) then
    ([Ev.check false], SLOut.modelError)
  else if stopOf env key 1 then
    ([Ev.check false, Ev.check true], SLOut.cancelled)
  else if model == claudeModel then
    let r := runM (aStep env key) fuel 2 ⟨0, msgs0, [], APc.chkTop⟩
    (Ev.check false :: Ev.check false :: r.1, toSL r.2)
  else
    let r := runM (oStep env key) fuel 2 ⟨0, [], msgs0, OPc.chkTop⟩
    (Ev.check false :: Ev.check false :: r.1, toSL r.2)

/-! ## Trace predicates -/

/-- Events that are (part of) an observation, decision or execution phase:
a collaborator call. -/
@[simp] def isPhase : Ev → Bool
  | Ev.observe => true
  | Ev.decide => true
  | Ev.substep => true
  | _ => false

/-- Number of collaborator-call events in a trace. -/
@[simp] def phaseCount : List Ev → Nat
  | [] => 0
  | e :: tr => (if isPhase e then 1 else 0) + phaseCount tr

/-- Every cancellation check that read `true` is the final event of the
trace: the loop returns immediately, in particular nothing further is passed
to the executor. -/
@[simp] def truesLast : List Ev → Bool
  | [] => true
  | Ev.check true :: tr => tr.isEmpty
  | Ev.check false :: tr => truesLast tr
  | Ev.observe :: tr => truesLast tr
  | Ev.decide :: tr => truesLast tr
  | Ev.substep :: tr => truesLast tr
  | Ev.yieldMsg _ :: tr => truesLast tr

/-- At most one collaborator call between consecutive cancellation checks
(the flag records whether a phase event has occurred since the last
check; it starts `true`, forbidding phase events before the first check). -/
@[simp] def segOk : Bool → List Ev → Bool
  | _, [] => true
  | _, Ev.check _ :: tr => segOk false tr
  | u, Ev.observe :: tr => !u && segOk true tr
  | u, Ev.decide :: tr => !u && segOk true tr
  | u, Ev.substep :: tr => !u && segOk true tr
  | u, Ev.yieldMsg _ :: tr => segOk u tr

/-- Between every decision event and the next executor sub-step there is a
cancellation check (the flag records whether a decision is pending without
an intervening check). -/
@[simp] def sepOk : Bool → List Ev → Bool
  | _, [] => true
  | _, Ev.check _ :: tr => sepOk false tr
  | _, Ev.decide :: tr => sepOk true tr
  | a, Ev.substep :: tr => !a && sepOk a tr
  | a, Ev.observe :: tr => sepOk a tr
  | a, Ev.yieldMsg _ :: tr => sepOk a tr

/-- Every check event at trace position `p` (event time `t0 + p`) records
exactly the flag value `stopAt (t0 + p)`. -/
@[simp] def evOk (stopAt : Nat → Bool) : Nat → List Ev → Bool
  | _, [] => true
  | t, Ev.check b :: tr => (b == stopAt t) && evOk stopAt (t+1) tr
  | t, Ev.observe :: tr => evOk stopAt (t+1) tr
  | t, Ev.decide :: tr => evOk stopAt (t+1) tr
  | t, Ev.substep :: tr => evOk stopAt (t+1) tr
  | t, Ev.yieldMsg _ :: tr => evOk stopAt (t+1) tr

/-- Values of the segment flag acceptable when the Anthropic machine sits at
a given control location: locations about to emit a collaborator call (or to
hand control to one without an intervening check) need a fresh segment. -/
@[simp] def aAllowed : APc → Bool → Bool
  | APc.obsPh, u => !u
  | APc.decPh, u => !u
  | APc.execStep _, u => !u
  | APc.yieldItem _ _, u => !u
  | _, _ => true

/-- Acceptable decision-pending flags per Anthropic control location. -/
@[simp] def aSepAllowed : APc → Bool → Bool
  | APc.execStep _, a => !a
  | APc.yieldItem _ _, a => !a
  | _, _ => true

/-- Values of the segment flag acceptable per omniparser control location. -/
@[simp] def oAllowed : OPc → Bool → Bool
  | OPc.obsPh, u => !u
  | OPc.decPh, u => !u
  | OPc.execNext _, u => !u
  | _, _ => true

/-- Acceptable decision-pending flags per omniparser control location. -/
@[simp] def oSepAllowed : OPc → Bool → Bool
  | OPc.execNext _, a => !a
  | _, _ => true

/-! ## Concrete environments used by witnesses and counterexamples -/

/-- A loop environment whose token never requests cancellation and whose
collaborators behave benignly. -/
def quietEnv : LoopEnv :=
  ⟨fun _ => ⟨false, none⟩, fun _ => "screen", fun _ => [("msg", ["res"])],
   fun _ => (0, some [("Next Action", "click box")]),
   fun _ => [ExecItem.tup ["res"]]⟩

/-- A loop environment whose decision model returns an empty dict (so the
`"Next Action"` key is absent) while the executor still has work to yield. -/
def emptyDictEnv : LoopEnv :=
  ⟨fun _ => ⟨false, none⟩, fun _ => "screen", fun _ => [],
   fun _ => (0, some []), fun _ => [ExecItem.tup ["res"]]⟩

/-- A loop environment whose decision model signals completion with the
`"None"` sentinel and whose executor yields nothing. -/
def doneEnv : LoopEnv :=
  ⟨fun _ => ⟨false, none⟩, fun _ => "screen", fun _ => [],
   fun _ => (0, some [("Next Action", "None")]), fun _ => []⟩

/-- A drive environment for a task whose per-request token was flipped by the
stop handler: the pre-yield check observes the stop. -/
def cancelledDriveEnv : DriveEnv :=
  ⟨fun _ => false, fun _ => true, Except.ok (some [])⟩

/-! ## Helper lemmas -/


/-! ## Helper lemmas about the association-list dictionary operations -/

theorem getKV_map_setKV_self {β : Type} (k : String) (v : β) :
    ∀ l : List (String × β), (getKV l k).isSome = true →
      getKV (l.map (fun kv => if kv.1 == k then (k, v) else kv)) k
        = some v := by
  intro l
  induction l with
  | nil => intro h; simp [getKV] at h
  | cons kv rest ih =>
    intro h
    by_cases hk : (kv.1 == k) = true
    · simp [getKV, hk]
    · simp only [getKV, hk, if_false] at h
      simpa [getKV, hk] using ih h

theorem getKV_append_single {β : Type} (k k2 : String) (v : β) :
    ∀ l : List (String × β),
      getKV (l ++ [(k2, v)]) k =
        (match getKV l k with
         | some w => some w
         | none => if k2 == k then some v else none) := by
  intro l
  induction l with
  | nil => simp [getKV]
  | cons kv rest ih =>
    by_cases hk : (kv.1 == k) = true
    · simp [getKV, hk]
    · simpa [getKV, hk] using ih

theorem getKV_map_setKV_other {β : Type} (k k2 : String) (v : β)
    (hne : ¬k2 = k) :
    ∀ l : List (String × β),
      getKV (l.map (fun kv => if kv.1 == k2 then (k2, v) else kv)) k
        = getKV l k := by
  intro l
  induction l with
  | nil => simp
  | cons kv rest ih =>
    by_cases hk2 : (kv.1 == k2) = true
    · have hne2 : ¬((k2 : String) == k) = true := by
        simpa [beq_iff_eq] using hne
      have hne3 : ¬(kv.1 == k) = true := by
        rw [beq_iff_eq] at hk2 ⊢
        rw [hk2]; exact hne
      simpa [getKV, hk2, hne2, hne3] using ih
    · by_cases hk : (kv.1 == k) = true
      · simp [getKV, hk2, hk]
      · simpa [getKV, hk2, hk] using ih

theorem getKV_setKV_self {β : Type} (l : List (String × β)) (k : String)
    (v : β) : getKV (setKV l k v) k = some v := by
  unfold setKV
  by_cases h : (getKV l k).isSome = true
  · rw [if_pos h]
    exact getKV_map_setKV_self k v l h
  · rw [if_neg h]
    rw [getKV_append_single]
    cases hg : getKV l k with
    | some w => rw [hg] at h; simp at h
    | none => simp

theorem getKV_setKV_other {β : Type} (l : List (String × β)) (k k2 : String)
    (v : β) (hne : ¬k2 = k) : getKV (setKV l k2 v) k = getKV l k := by
  unfold setKV
  by_cases h : (getKV l k2).isSome = true
  · rw [if_pos h]
    exact getKV_map_setKV_other k k2 v hne l
  · rw [if_neg h]
    rw [getKV_append_single]
    cases hg : getKV l k with
    | some w => simp
    | none =>
      have : ¬((k2 : String) == k) = true := by simpa [beq_iff_eq] using hne
      simp [this]

theorem getKV_foldl_setKV_true (ups : List (String × String)) :
    ∀ (l : List (String × TaskTok)) (k : String),
      ((∃ up ∈ ups, taskKey up.1 up.2 = k) ∨ getKV l k = some ⟨true⟩) →
      getKV (ups.foldl
        (fun acc up => setKV acc (taskKey up.1 up.2) ⟨true⟩) l) k
        = some ⟨true⟩ := by
  induction ups with
  | nil =>
    intro l k h
    rcases h with h | h
    · simp at h
    · simpa using h
  | cons up rest ih =>
    intro l k h
    simp only [List.foldl_cons]
    apply ih
    by_cases hk : taskKey up.1 up.2 = k
    · right; rw [← hk]; exact getKV_setKV_self l (taskKey up.1 up.2) ⟨true⟩
    · rcases h with h | h
      · rcases h with ⟨up2, hmem, hkey⟩
        rcases List.mem_cons.mp hmem with heq | hmem2
        · exact absurd (heq ▸ hkey) hk
        · left; exact ⟨up2, hmem2, hkey⟩
      · right; rw [getKV_setKV_other l k (taskKey up.1 up.2) ⟨true⟩ hk]
        exact h

theorem getKV_none_filter_nil (l : List (String × String)) (u : String)
    (h : getKV l u = none) : l.filter (fun kv => kv.1 == u) = [] := by
  induction l with
  | nil => rfl
  | cons kv rest ih =>
    by_cases hk : (kv.1 == u) = true
    · simp [getKV, hk] at h
    · simp only [getKV, hk, if_false] at h
      simpa [List.filter, hk] using ih h

/-! ## Trace invariants of the two loop machines -/

theorem aRun_inv (env : LoopEnv) (key : String) :
    ∀ fuel t s u a, aAllowed s.pc u = true → aSepAllowed s.pc a = true →
      truesLast (runM (aStep env key) fuel t s).1 = true ∧
      segOk u (runM (aStep env key) fuel t s).1 = true ∧
      sepOk a (runM (aStep env key) fuel t s).1 = true ∧
      evOk (stopOf env key) t (runM (aStep env key) fuel t s).1 = true := by
  intro fuel
  induction fuel with
  | zero => intro t s u a _ _; simp [runM]
  | succ n ih =>
    intro t s u a hu ha
    obtain ⟨i, msgs, trc, pc⟩ := s
    cases pc with
    | chkTop =>
      cases hb : stopOf env key t with
      | true => simp [runM, aStep, hb]
      | false =>
        have h2 := ih (t+1) ⟨i, msgs, trc, APc.obsPh⟩ false false (by simp)
          (by simp)
        simpa [runM, aStep, hb] using h2
    | obsPh =>
      have hu2 : u = false := by simpa using hu
      subst hu2
      have h2 := ih (t+1) ⟨i, msgs, trc, APc.chkPostObs⟩ true a (by simp) ha
      simpa [runM, aStep] using h2
    | chkPostObs =>
      cases hb : stopOf env key t with
      | true => simp [runM, aStep, hb]
      | false =>
        have h2 := ih (t+1)
          ⟨i, msgs ++ [AMsg.screenInfo (env.screenInfo i)], trc,
            APc.chkPreModel⟩ false false (by simp) (by simp)
        simpa [runM, aStep, hb] using h2
    | chkPreModel =>
      cases hb : stopOf env key t with
      | true => simp [runM, aStep, hb]
      | false =>
        have h2 := ih (t+1) ⟨i, msgs, trc, APc.decPh⟩ false false (by simp)
          (by simp)
        simpa [runM, aStep, hb] using h2
    | decPh =>
      have hu2 : u = false := by simpa using hu
      subst hu2
      have h2 := ih (t+1) ⟨i, msgs, trc, APc.chkPostModel⟩ true true (by simp)
        (by simp)
      simpa [runM, aStep] using h2
    | chkPostModel =>
      cases hb : stopOf env key t with
      | true => simp [runM, aStep, hb]
      | false =>
        have h2 := ih (t+1) ⟨i, msgs, trc, APc.execStep (env.aExecItems i)⟩
          false false (by simp) (by simp)
        simpa [runM, aStep, hb] using h2
    | execStep items =>
      have hu2 : u = false := by simpa using hu
      have ha2 : a = false := by simpa using ha
      subst hu2; subst ha2
      cases items with
      | nil =>
        have h2 := ih t ⟨i, msgs, trc, APc.trcTest⟩ false false (by simp)
          (by simp)
        simpa [runM, aStep] using h2
      | cons it rest =>
        have h2 := ih (t+1) ⟨i, msgs, it.2, APc.chkItem it.1 rest⟩ true false
          (by simp) (by simp)
        simpa [runM, aStep] using h2
    | chkItem m rest =>
      cases hb : stopOf env key t with
      | true => simp [runM, aStep, hb]
      | false =>
        have h2 := ih (t+1) ⟨i, msgs, trc, APc.yieldItem m rest⟩ false false
          (by simp) (by simp)
        simpa [runM, aStep, hb] using h2
    | yieldItem m rest =>
      have hu2 : u = false := by simpa using hu
      have ha2 : a = false := by simpa using ha
      subst hu2; subst ha2
      have h2 := ih (t+1) ⟨i, msgs, trc, APc.execStep rest⟩ false false
        (by simp) (by simp)
      simpa [runM, aStep] using h2
    | trcTest =>
      by_cases he : trc.isEmpty = true
      · simp [runM, aStep, he]
      · have h2 := ih t ⟨i + 1, msgs ++ [AMsg.toolResult trc], trc,
          APc.chkTop⟩ u a (by simp) (by simp)
        simpa [runM, aStep, he] using h2

theorem oRun_inv (env : LoopEnv) (key : String) :
    ∀ fuel t s u a, oAllowed s.pc u = true → oSepAllowed s.pc a = true →
      truesLast (runM (oStep env key) fuel t s).1 = true ∧
      segOk u (runM (oStep env key) fuel t s).1 = true ∧
      sepOk a (runM (oStep env key) fuel t s).1 = true ∧
      evOk (stopOf env key) t (runM (oStep env key) fuel t s).1 = true := by
  intro fuel
  induction fuel with
  | zero => intro t s u a _ _; simp [runM]
  | succ n ih =>
    intro t s u a hu ha
    obtain ⟨i, trc, msgs, pc⟩ := s
    cases pc with
    | chkTop =>
      cases hb : stopOf env key t with
      | true => simp [runM, oStep, hb]
      | false =>
        have h2 := ih (t+1) ⟨i, trc, msgs, OPc.obsPh⟩ false false (by simp)
          (by simp)
        simpa [runM, oStep, hb] using h2
    | obsPh =>
      have hu2 : u = false := by simpa using hu
      subst hu2
      have h2 := ih (t+1) ⟨i, trc, msgs, OPc.chkPostObs⟩ true a (by simp) ha
      simpa [runM, oStep] using h2
    | chkPostObs =>
      cases hb : stopOf env key t with
      | true => simp [runM, oStep, hb]
      | false =>
        have h2 := ih (t+1) ⟨i, trc, msgs, OPc.decPh⟩ false false (by simp)
          (by simp)
        simpa [runM, oStep, hb] using h2
    | decPh =>
      have hu2 : u = false := by simpa using hu
      subst hu2
      have h2 := ih (t+1) ⟨i, trc, msgs, OPc.chkPostDec⟩ true true (by simp)
        (by simp)
      simpa [runM, oStep] using h2
    | chkPostDec =>
      cases hb : stopOf env key t with
      | true => simp [runM, oStep, hb]
      | false =>
        have h2 := ih (t+1) ⟨i, trc, msgs, OPc.complTest⟩ false false
          (by simp) (by simp)
        simpa [runM, oStep, hb] using h2
    | complTest =>
      by_cases hc : complSignal (env.oActorOut i).2 = true
      · simp [runM, oStep, hc]
      · have h2 := ih t ⟨i, trc, msgs, OPc.chkExec (env.oExecItems i)⟩ u a
          (by simp) (by simp)
        simpa [runM, oStep, hc] using h2
    | chkExec items =>
      cases hb : stopOf env key t with
      | true => simp [runM, oStep, hb]
      | false =>
        have h2 := ih (t+1) ⟨i, trc, msgs, OPc.execNext items⟩ false false
          (by simp) (by simp)
        simpa [runM, oStep, hb] using h2
    | execNext items =>
      have hu2 : u = false := by simpa using hu
      have ha2 : a = false := by simpa using ha
      subst hu2; subst ha2
      cases items with
      | nil =>
        have h2 := ih t ⟨i, trc, msgs, OPc.trcTest⟩ false false (by simp)
          (by simp)
        simpa [runM, oStep] using h2
      | cons it rest =>
        cases it with
        | tup trc2 =>
          have h2 := ih (t+1) ⟨i, trc2, msgs, OPc.chkExec rest⟩ true false
            (by simp) (by simp)
          simpa [runM, oStep] using h2
        | nontup =>
          have h2 := ih (t+1) ⟨i, trc, msgs, OPc.chkExec rest⟩ true false
            (by simp) (by simp)
          simpa [runM, oStep] using h2
        | err =>
          have h2 := ih (t+1) ⟨i, trc, msgs, OPc.trcTest⟩ true false
            (by simp) (by simp)
          simpa [runM, oStep] using h2
    | trcTest =>
      by_cases he : trc.isEmpty = true
      · simp [runM, oStep, he]
      · have h2 := ih t ⟨i + 1, trc, msgs, OPc.chkTop⟩ u a (by simp)
          (by simp)
        simpa [runM, oStep, he] using h2

theorem phase_all (stopAt : Nat → Bool)
    (hm : ∀ t2, stopAt t2 = true → stopAt (t2+1) = true) :
    ∀ (tr : List Ev) (u : Bool) (t0 : Nat), segOk u tr = true →
      evOk stopAt t0 tr = true → truesLast tr = true → stopAt t0 = true →
      phaseCount tr ≤ (if u then 0 else 1) := by
  intro tr
  induction tr with
  | nil => intro u t0 _ _ _ _; simp
  | cons e rest ih =>
    intro u t0 hseg hev htl hs
    cases e with
    | check b =>
      have hb : b = true := by
        have := (Bool.and_eq_true _ _).mp hev
        have hbe := beq_iff_eq.mp this.1
        rw [hbe, hs]
      subst hb
      have : rest.isEmpty = true := by simpa using htl
      have hr : rest = [] := by simpa [List.isEmpty_iff] using this
      subst hr
      cases u <;> simp
    | observe =>
      obtain ⟨hu, hseg2⟩ : u = false ∧ segOk true rest = true := by
        simpa using hseg
      subst hu
      have hev2 : evOk stopAt (t0+1) rest = true := by simpa using hev
      have htl2 : truesLast rest = true := by simpa using htl
      have := ih true (t0+1) hseg2 hev2 htl2 (hm t0 hs)
      simpa using this
    | decide =>
      obtain ⟨hu, hseg2⟩ : u = false ∧ segOk true rest = true := by
        simpa using hseg
      subst hu
      have hev2 : evOk stopAt (t0+1) rest = true := by simpa using hev
      have htl2 : truesLast rest = true := by simpa using htl
      have := ih true (t0+1) hseg2 hev2 htl2 (hm t0 hs)
      simpa using this
    | substep =>
      obtain ⟨hu, hseg2⟩ : u = false ∧ segOk true rest = true := by
        simpa using hseg
      subst hu
      have hev2 : evOk stopAt (t0+1) rest = true := by simpa using hev
      have htl2 : truesLast rest = true := by simpa using htl
      have := ih true (t0+1) hseg2 hev2 htl2 (hm t0 hs)
      simpa using this
    | yieldMsg m =>
      have hseg2 : segOk u rest = true := by simpa using hseg
      have hev2 : evOk stopAt (t0+1) rest = true := by simpa using hev
      have htl2 : truesLast rest = true := by simpa using htl
      have := ih u (t0+1) hseg2 hev2 htl2 (hm t0 hs)
      simpa using this

theorem phase_drop (stopAt : Nat → Bool)
    (hm : ∀ t2, stopAt t2 = true → stopAt (t2+1) = true) :
    ∀ (tr : List Ev) (u : Bool) (t0 d : Nat), segOk u tr = true →
      evOk stopAt t0 tr = true → truesLast tr = true →
      stopAt (t0 + d) = true → phaseCount (tr.drop d) ≤ 1 := by
  intro tr
  induction tr with
  | nil => intro u t0 d _ _ _ _; simp
  | cons e rest ih =>
    intro u t0 d hseg hev htl hs
    cases d with
    | zero =>
      have h1 := phase_all stopAt hm (e :: rest) u t0 hseg hev htl
        (by simpa using hs)
      calc phaseCount (List.drop 0 (e :: rest)) = phaseCount (e :: rest) := by
            rw [List.drop_zero]
        _ ≤ (if u then 0 else 1) := h1
        _ ≤ 1 := by cases u <;> simp
    | succ d2 =>
      have hdrop : List.drop (d2+1) (e :: rest) = List.drop d2 rest := rfl
      rw [hdrop]
      have hs2 : stopAt ((t0 + 1) + d2) = true := by
        have : t0 + (d2 + 1) = (t0 + 1) + d2 := by omega
        rw [← this]; exact hs
      cases e with
      | check b =>
        cases b with
        | true =>
          have : rest.isEmpty = true := by simpa using htl
          have hr : rest = [] := by simpa [List.isEmpty_iff] using this
          subst hr; simp
        | false =>
          obtain ⟨hev1, hev2⟩ :
              stopAt t0 = false ∧ evOk stopAt (t0+1) rest = true := by
            simpa using hev
          exact ih false (t0+1) d2 (by simpa using hseg) hev2
            (by simpa using htl) hs2
      | observe =>
        obtain ⟨hu2, hseg2⟩ : u = false ∧ segOk true rest = true := by
          simpa using hseg
        exact ih true (t0+1) d2 hseg2 (by simpa using hev)
          (by simpa using htl) hs2
      | decide =>
        obtain ⟨hu2, hseg2⟩ : u = false ∧ segOk true rest = true := by
          simpa using hseg
        exact ih true (t0+1) d2 hseg2 (by simpa using hev)
          (by simpa using htl) hs2
      | substep =>
        obtain ⟨hu2, hseg2⟩ : u = false ∧ segOk true rest = true := by
          simpa using hseg
        exact ih true (t0+1) d2 hseg2 (by simpa using hev)
          (by simpa using htl) hs2
      | yieldMsg m =>
        exact ih u (t0+1) d2 (by simpa using hseg) (by simpa using hev)
          (by simpa using htl) hs2

theorem runM_mono {σ ω : Type} (step : Nat → σ → List Ev × (σ ⊕ ω)) :
    ∀ fuel g t s, fuel ≤ g → (runM step fuel t s).2.isSome = true →
      runM step g t s = runM step fuel t s := by
  intro fuel
  induction fuel with
  | zero => intro g t s _ hsome; simp [runM] at hsome
  | succ n ih =>
    intro g t s hle hsome
    obtain ⟨g2, rfl⟩ : ∃ g2, g = g2 + 1 := ⟨g - 1, by omega⟩
    cases hstep : step t s with
    | mk es next =>
      cases next with
      | inr out => simp [runM, hstep]
      | inl s2 =>
        have hsome2 : (runM step n (t + es.length) s2).2.isSome = true := by
          simpa [runM, hstep] using hsome
        have := ih g2 (t + es.length) s2 (by omega) hsome2
        simp [runM, hstep, this]

theorem sampling_inv (appTaskTokens : Nat → List (String × TaskTok))
    (env : LoopEnv) (model user_id prompt_id : String) (msgs0 : List AMsg)
    (fuel : Nat) :
    truesLast (samplingLoopSync appTaskTokens env model user_id prompt_id
        msgs0 fuel).1 = true ∧
    segOk true (samplingLoopSync appTaskTokens env model user_id prompt_id
        msgs0 fuel).1 = true ∧
    sepOk false (samplingLoopSync appTaskTokens env model user_id prompt_id
        msgs0 fuel).1 = true ∧
    evOk (stopOf env (taskKey user_id prompt_id)) 0
      (samplingLoopSync appTaskTokens env model user_id prompt_id
        msgs0 fuel).1 = true := by
  unfold samplingLoopSync
  by_cases h0 : stopOf env (taskKey user_id prompt_id) 0 = true
  · simp [h0]
  · have h0f : stopOf env (taskKey user_id prompt_id) 0 = false := by
      simpa using h0
    by_cases hmod : model = claudeModel ∨ model ∈ omniModels
    · have hmod2 : ¬(¬model = claudeModel ∧ model ∉ omniModels) :=
        fun hc => hmod.elim hc.1 hc.2
      by_cases h1 : stopOf env (taskKey user_id prompt_id) 1 = true
      · simp [h0f, hmod2, h1]
      · have h1f : stopOf env (taskKey user_id prompt_id) 1 = false := by
          simpa using h1
        by_cases hcl : model = claudeModel
        · have h2 := aRun_inv env (taskKey user_id prompt_id) fuel 2
            ⟨0, msgs0, [], APc.chkTop⟩ false false (by simp) (by simp)
          simpa [h0f, hmod2, h1f, hcl] using h2
        · have hOm : model ∈ omniModels := hmod.resolve_left hcl
          have h2 := oRun_inv env (taskKey user_id prompt_id) fuel 2
            ⟨0, [], msgs0, OPc.chkTop⟩ false false (by simp) (by simp)
          simpa [h0f, hmod2, h1f, hcl, hOm] using h2
    · obtain ⟨hA, hB⟩ := not_or.mp hmod
      simp [h0f, hA, hB]

/-- C1: once the cancellation token's stop flag is set (and stays set), the
agent loop — in both backend variants, covered by quantifying over the model
name — (i) never emits any further event after a cancellation check observes
`true`, so no action is ever passed to the executor after the flag has been
observed true in a pre-check (`truesLast`); (ii) performs a cancellation
check between the decision call and any executor sub-step (`sepOk`);
(iii) performs at most one more observation/decision/execution collaborator
call after any instant at which the flag is set (`phaseCount` of the trace
suffix from that instant); and (iv) terminates immediately, with no phase at
all, when the flag is already set at entry. -/
theorem claim_C1 (appTaskTokens : Nat → List (String × TaskTok))
    (env : LoopEnv) (model user_id prompt_id : String) (msgs0 : List AMsg)
    (fuel : Nat)
    (hm : ∀ t, stopOf env (taskKey user_id prompt_id) t = true →
      stopOf env (taskKey user_id prompt_id) (t+1) = true) :
    truesLast (samplingLoopSync appTaskTokens env model user_id prompt_id
        msgs0 fuel).1 = true ∧
    sepOk false (samplingLoopSync appTaskTokens env model user_id prompt_id
        msgs0 fuel).1 = true ∧
    (∀ d, stopOf env (taskKey user_id prompt_id) d = true →
      phaseCount ((samplingLoopSync appTaskTokens env model user_id prompt_id
        msgs0 fuel).1.drop d) ≤ 1) ∧
    (stopOf env (taskKey user_id prompt_id) 0 = true →
      samplingLoopSync appTaskTokens env model user_id prompt_id msgs0 fuel
        = ([Ev.check true], SLOut.cancelled)) := by
  obtain ⟨hT, hS, hP, hE⟩ := sampling_inv appTaskTokens env model user_id
    prompt_id msgs0 fuel
  refine ⟨hT, hP, ?_, ?_⟩
  · intro d hd
    exact phase_drop (stopOf env (taskKey user_id prompt_id)) hm
      (samplingLoopSync appTaskTokens env model user_id prompt_id
        msgs0 fuel).1 true 0 d hS hE hT (by simpa using hd)
  · intro h
    simp [samplingLoopSync, h]

/-- Witness for C1 at a concrete quiet environment running the omniparser
variant. -/
theorem claim_C1_witness :
    truesLast (samplingLoopSync (fun _ => []) quietEnv "omniparser + gpt-4o"
        "u" "0" [] 9).1 = true ∧
    sepOk false (samplingLoopSync (fun _ => []) quietEnv "omniparser + gpt-4o"
        "u" "0" [] 9).1 = true ∧
    (∀ d, stopOf quietEnv (taskKey "u" "0") d = true →
      phaseCount ((samplingLoopSync (fun _ => []) quietEnv
        "omniparser + gpt-4o" "u" "0" [] 9).1.drop d) ≤ 1) ∧
    (stopOf quietEnv (taskKey "u" "0") 0 = true →
      samplingLoopSync (fun _ => []) quietEnv "omniparser + gpt-4o" "u" "0"
        [] 9 = ([Ev.check true], SLOut.cancelled)) :=
  claim_C1 (fun _ => []) quietEnv "omniparser + gpt-4o" "u" "0" [] 9
    (by intro t h; simp [stopOf, checkStop, quietEnv, getKV] at h)

/-- C9: the loop's cancellation checks read `task_tokens` only from the
`cancellation_token` argument (`loop.py` line 68 and its repetitions), never
from the process-wide `app_state`: two executions given the same token
contents and collaborator behaviour but arbitrarily different
`app_state["task_tokens"]` contents have identical traces and outcomes. -/
theorem claim_C9 (appTaskTokens1 appTaskTokens2 : Nat → List (String × TaskTok))
    (env : LoopEnv) (model user_id prompt_id : String) (msgs0 : List AMsg)
    (fuel : Nat) :
    samplingLoopSync appTaskTokens1 env model user_id prompt_id msgs0 fuel
      = samplingLoopSync appTaskTokens2 env model user_id prompt_id msgs0
          fuel := rfl

theorem oIter_compl (env : LoopEnv) (key : String)
    (hstop : ∀ u, stopOf env key u = false) (i : Nat) (trc : List String)
    (msgs : List AMsg) (t : Nat)
    (hc : complSignal (env.oActorOut i).2 = true) :
    runM (oStep env key) 6 t ⟨i, trc, msgs, OPc.chkTop⟩
      = ([Ev.check false, Ev.observe, Ev.check false, Ev.decide,
          Ev.check false], some (MOut.done msgs)) := by
  simp [runM, oStep, hstop, hc]

theorem oIter_to_exec (env : LoopEnv) (key : String)
    (hstop : ∀ u, stopOf env key u = false) (i : Nat) (trc : List String)
    (msgs : List AMsg) (t fuel : Nat)
    (hc : complSignal (env.oActorOut i).2 = false) :
    (runM (oStep env key) (fuel + 6) t ⟨i, trc, msgs, OPc.chkTop⟩).2
      = (runM (oStep env key) fuel (t + 5)
          ⟨i, trc, msgs, OPc.chkExec (env.oExecItems i)⟩).2 := by
  simp [runM, oStep, hstop, hc]

theorem runM_step_inl {σ ω : Type} (step : Nat → σ → List Ev × (σ ⊕ ω))
    (fuel t : Nat) (s s2 : σ) (es : List Ev)
    (h : step t s = (es, Sum.inl s2)) :
    runM step (fuel + 1) t s
      = (es ++ (runM step fuel (t + es.length) s2).1,
         (runM step fuel (t + es.length) s2).2) := by
  simp only [runM, h]

theorem oExec_cons_step (env : LoopEnv) (key : String)
    (hstop : ∀ u, stopOf env key u = false) (i : Nat)
    (trc trc2 : List String) (msgs : List AMsg) (t fuel : Nat)
    (it : ExecItem) (rest : List ExecItem)
    (hit : (oStep env key (t+1) ⟨i, trc, msgs, OPc.execNext (it :: rest)⟩)
      = ([Ev.substep], Sum.inl ⟨i, trc2, msgs, OPc.chkExec rest⟩)) :
    (runM (oStep env key) (fuel + 2) t
        ⟨i, trc, msgs, OPc.chkExec (it :: rest)⟩).2
      = (runM (oStep env key) fuel (t + 2)
          ⟨i, trc2, msgs, OPc.chkExec rest⟩).2 := by
  have e1 : oStep env key t ⟨i, trc, msgs, OPc.chkExec (it :: rest)⟩
      = ([Ev.check false], Sum.inl ⟨i, trc, msgs, OPc.execNext (it :: rest)⟩)
    := by simp [oStep, hstop]
  rw [show fuel + 2 = (fuel + 1) + 1 from rfl,
    runM_step_inl (oStep env key) (fuel + 1) t _ _ _ e1]
  simp only [List.length_cons, List.length_nil]
  rw [runM_step_inl (oStep env key) fuel (t + 1) _ _ _ hit]
  simp [Nat.add_assoc]

theorem oExec_done (env : LoopEnv) (key : String)
    (hstop : ∀ u, stopOf env key u = false) :
    ∀ (items : List ExecItem) (trc : List String) (i : Nat)
      (msgs : List AMsg) (t : Nat), execTrcAfter items trc = [] →
      (runM (oStep env key) (2 * items.length + 3) t
          ⟨i, trc, msgs, OPc.chkExec items⟩).2 = some (MOut.done msgs) := by
  intro items
  induction items with
  | nil =>
    intro trc i msgs t h
    simp only [execTrcAfter] at h
    subst h
    simp [runM, oStep, hstop]
  | cons it rest ih =>
    intro trc i msgs t h
    cases it with
    | tup trc2 =>
      simp only [execTrcAfter] at h
      have hf : 2 * (ExecItem.tup trc2 :: rest).length + 3
          = (2 * rest.length + 3) + 2 := by
        simp [List.length_cons]; ring
      rw [hf, oExec_cons_step env key hstop i trc trc2 msgs t
        (2 * rest.length + 3) (ExecItem.tup trc2) rest (by simp [oStep])]
      exact ih trc2 i msgs (t + 2) h
    | nontup =>
      simp only [execTrcAfter] at h
      have hf : 2 * (ExecItem.nontup :: rest).length + 3
          = (2 * rest.length + 3) + 2 := by
        simp [List.length_cons]; ring
      rw [hf, oExec_cons_step env key hstop i trc trc msgs t
        (2 * rest.length + 3) ExecItem.nontup rest (by simp [oStep])]
      exact ih trc i msgs (t + 2) h
    | err =>
      simp only [execTrcAfter] at h
      subst h
      have hf : 2 * (ExecItem.err :: rest).length + 3
          = (2 * rest.length + 2) + 3 := by
        simp [List.length_cons]; ring
      rw [hf]
      simp [runM, oStep, hstop]

/-- C8 (amended): in the omniparser variant, when no stop is requested, (i) an
iteration whose decision response is a truthy (non-empty) dict whose
`"Next Action"` is the `"None"` sentinel, absent, or empty terminates the
loop normally with the message history — its trace is exactly the three
checks, the observation and the decision, so the executor is not invoked
again; and (ii) an iteration after which `tool_result_content` is empty
terminates the loop normally with the message history. (The unamended claim
also covered an empty-dict response; the code skips completion detection for
a falsy dict — see the counterexample.) -/
theorem claim_C8 (env : LoopEnv) (key : String)
    (hstop : ∀ u, stopOf env key u = false) :
    (∀ (i : Nat) (trc : List String) (msgs : List AMsg) (t fuel : Nat),
      6 ≤ fuel → complSignal (env.oActorOut i).2 = true →
      runM (oStep env key) fuel t ⟨i, trc, msgs, OPc.chkTop⟩
        = ([Ev.check false, Ev.observe, Ev.check false, Ev.decide,
            Ev.check false], some (MOut.done msgs))) ∧
    (∀ (i : Nat) (trc : List String) (msgs : List AMsg) (t fuel : Nat),
      2 * (env.oExecItems i).length + 9 ≤ fuel →
      execTrcAfter (env.oExecItems i) trc = [] →
      (runM (oStep env key) fuel t ⟨i, trc, msgs, OPc.chkTop⟩).2
        = some (MOut.done msgs)) := by
  constructor
  · intro i trc msgs t fuel hle hc
    have h6 := oIter_compl env key hstop i trc msgs t hc
    have hs : (runM (oStep env key) 6 t ⟨i, trc, msgs, OPc.chkTop⟩).2.isSome
        = true := by rw [h6]; rfl
    rw [runM_mono (oStep env key) 6 fuel t _ hle hs, h6]
  · intro i trc msgs t fuel hle h
    by_cases hc : complSignal (env.oActorOut i).2 = true
    · have h6 := oIter_compl env key hstop i trc msgs t hc
      have hs : (runM (oStep env key) 6 t
          ⟨i, trc, msgs, OPc.chkTop⟩).2.isSome = true := by rw [h6]; rfl
      rw [runM_mono (oStep env key) 6 fuel t _ (by omega) hs, h6]
    · have hcf : complSignal (env.oActorOut i).2 = false := by simpa using hc
      have hx : (runM (oStep env key)
          (2 * (env.oExecItems i).length + 9) t
          ⟨i, trc, msgs, OPc.chkTop⟩).2 = some (MOut.done msgs) := by
        rw [show 2 * (env.oExecItems i).length + 9
            = (2 * (env.oExecItems i).length + 3) + 6 from by ring]
        rw [oIter_to_exec env key hstop i trc msgs t _ hcf]
        exact oExec_done env key hstop (env.oExecItems i) trc i msgs (t+5) h
      have hs2 : (runM (oStep env key)
          (2 * (env.oExecItems i).length + 9) t
          ⟨i, trc, msgs, OPc.chkTop⟩).2.isSome = true := by rw [hx]; rfl
      rw [runM_mono (oStep env key) (2 * (env.oExecItems i).length + 9)
        fuel t _ hle hs2]
      exact hx

/-- Witness for C8 at a concrete completing environment. -/
theorem claim_C8_witness :
    ((∀ (i : Nat) (trc : List String) (msgs : List AMsg) (t fuel : Nat),
      6 ≤ fuel → complSignal (doneEnv.oActorOut i).2 = true →
      runM (oStep doneEnv "u_0") fuel t ⟨i, trc, msgs, OPc.chkTop⟩
        = ([Ev.check false, Ev.observe, Ev.check false, Ev.decide,
            Ev.check false], some (MOut.done msgs))) ∧
    (∀ (i : Nat) (trc : List String) (msgs : List AMsg) (t fuel : Nat),
      2 * (doneEnv.oExecItems i).length + 9 ≤ fuel →
      execTrcAfter (doneEnv.oExecItems i) trc = [] →
      (runM (oStep doneEnv "u_0") fuel t ⟨i, trc, msgs, OPc.chkTop⟩).2
        = some (MOut.done msgs))) ∧
    complSignal (doneEnv.oActorOut 0).2 = true :=
  ⟨claim_C8 doneEnv "u_0" (fun _ => rfl), by decide⟩

/-- Counterexample to C8 as stated: a decision response that is an empty
dict — so its `"Next Action"` is absent — does not terminate the loop; the
completion detection is skipped (`if vlm_response_json and isinstance(...)`
is false for a falsy dict) and the executor is invoked (a `substep` event
occurs). -/
theorem claim_C8_cex :
    (emptyDictEnv.oActorOut 0).2 = some [] ∧
    getKV ([] : List (String × String)) "Next Action" = none ∧
    Ev.substep ∈
      (runM (oStep emptyDictEnv "u_0") 12 0 ⟨0, [], [], OPc.chkTop⟩).1 ∧
    (runM (oStep emptyDictEnv "u_0") 12 0 ⟨0, [], [], OPc.chkTop⟩).2
      = none := by decide

theorem stopResolve_isSome (st : AppState) (msg : StopMsg)
    (h : msg.stop_all = true ∨ truthy msg.user_id = true) :
    (stopResolve st msg).isSome = true := by
  unfold stopResolve
  by_cases hs : msg.stop_all = true
  · simp [hs]
  · have hsf : msg.stop_all = false := by simpa using hs
    have htu : truthy msg.user_id = true := by
      rcases h with h | h
      · exact absurd h hs
      · exact h
    simp only [hsf, Bool.false_eq_true, if_false, htu, if_true]
    split <;> split <;> simp

theorem stopFold_spec (pidLocal : Option String) :
    ∀ (tasks : List (String × String)) (s : AppState)
      (acc : List (String × String)) (evs : List PubEv),
      (tasks.foldl (stopNotifyStep pidLocal) (s, acc, evs)).2.1
        = acc ++ tasks ∧
      (tasks.foldl (stopNotifyStep pidLocal) (s, acc, evs)).2.2
        = evs ++ tasks.map (fun up => ⟨"stopping", up.1, up.2⟩) ∧
      (tasks.foldl (stopNotifyStep pidLocal) (s, acc, evs)).1.stop = s.stop ∧
      (tasks.foldl (stopNotifyStep pidLocal) (s, acc, evs)).1.task_tokens
        = s.task_tokens ∧
      (tasks.foldl (stopNotifyStep pidLocal)
        (s, acc, evs)).1.cancellation_token = s.cancellation_token := by
  intro tasks
  induction tasks with
  | nil => intro s acc evs; simp
  | cons up rest ih =>
    intro s acc evs
    simp only [List.foldl_cons]
    have hstep : stopNotifyStep pidLocal (s, acc, evs) up
        = ((stopNotifyStep pidLocal (s, acc, evs) up).1,
           acc ++ [up], evs ++ [⟨"stopping", up.1, up.2⟩]) := by
      simp [stopNotifyStep]
    have hproj : (stopNotifyStep pidLocal (s, acc, evs) up).1.stop = s.stop
        ∧ (stopNotifyStep pidLocal (s, acc, evs) up).1.task_tokens
            = s.task_tokens
        ∧ (stopNotifyStep pidLocal (s, acc, evs) up).1.cancellation_token
            = s.cancellation_token := by
      simp only [stopNotifyStep]
      split
      · split <;> simp
      · simp
    obtain ⟨hp1, hp2, hp3⟩ := hproj
    rw [hstep]
    have hr := ih (stopNotifyStep pidLocal (s, acc, evs) up).1 (acc ++ [up])
      (evs ++ [⟨"stopping", up.1, up.2⟩])
    refine ⟨?_, ?_, ?_, ?_, ?_⟩
    · rw [hr.1]; simp
    · rw [hr.2.1]; simp
    · rw [hr.2.2.1, hp1]
    · rw [hr.2.2.2.1, hp2]
    · rw [hr.2.2.2.2, hp3]

/-- C5: a stop request supplying neither `stop_all` nor a truthy `user_id`
yields an error status with no side effects — the state is returned
unchanged and nothing is published; and whenever resolution produced an
empty `tasks_to_stop` list, the handler returns a warning status (with
nothing published), not an error. -/
theorem claim_C5 (st : AppState) (msg : StopMsg) :
    (msg.stop_all = false → truthy msg.user_id = false →
      handleStopRequest st msg = ⟨"error", [], st, [], []⟩) ∧
    (∀ st1 pidLocal, stopResolve st msg = some (st1, [], pidLocal) →
      handleStopRequest st msg = ⟨"warning", [], st1, [], []⟩) := by
  constructor
  · intro h1 h2
    unfold handleStopRequest stopResolve
    simp [h1, h2]
  · intro st1 pidLocal hsr
    unfold handleStopRequest
    rw [hsr]
    simp

/-- Witness for C5: the empty request errors without touching the state; a
request for a user with no active task resolves to nothing and warns. -/
theorem claim_C5_witness :
    handleStopRequest ⟨false, none, none, []⟩ ⟨none, none, false, true⟩
      = ⟨"error", [], ⟨false, none, none, []⟩, [], []⟩ ∧
    handleStopRequest ⟨false, none, none, []⟩ ⟨some "42", none, false, true⟩
      = ⟨"warning", [], ⟨true, none, some [], []⟩, [], []⟩ :=
  ⟨(claim_C5 ⟨false, none, none, []⟩ ⟨none, none, false, true⟩).1 rfl rfl,
   (claim_C5 ⟨false, none, none, []⟩ ⟨some "42", none, false, true⟩).2
     ⟨true, none, some [], []⟩ none (by decide)⟩

/-- C4 (amended): calling the stop handler again for a task that is no
longer in `active_sessions`: with `user_id` alone the second call returns a
warning; with an explicit `prompt_id` the handler unconditionally treats the
pair as a task to stop and returns success (not a warning); with a truthy
`user_id` it never returns an error. -/
theorem claim_C4 (st : AppState) (msg : StopMsg) (u p : String) :
    (¬u = "" → getKV st.active_sessions u = none →
      (handleStopRequest st ⟨some u, none, false, msg.force⟩).status
        = "warning") ∧
    (¬u = "" → ¬p = "" →
      (handleStopRequest st ⟨some u, some p, false, msg.force⟩).status
        = "success") ∧
    (msg.stop_all = false → truthy msg.user_id = true →
      (handleStopRequest st msg).status = "warning" ∨
      (handleStopRequest st msg).status = "success") := by
  refine ⟨?_, ?_, ?_⟩
  · intro hu hget
    unfold handleStopRequest stopResolve
    simp [truthy, hu, hget, getKV_none_filter_nil st.active_sessions u hget]
  · intro hu hp
    unfold handleStopRequest stopResolve
    simp [truthy, hu, hp]
  · intro hsa htu
    have hsome := stopResolve_isSome st msg (Or.inr htu)
    unfold handleStopRequest
    cases hsr : stopResolve st msg with
    | none => rw [hsr] at hsome; simp at hsome
    | some trip =>
      obtain ⟨st1, tasks, pidL⟩ := trip
      by_cases ht : tasks.isEmpty = true
      · left; simp [ht]
      · right; simp [ht]

/-- Witness for C4: after a first stop removed the session entry, a second
stop with `user_id` alone warns, while a second stop with the explicit pair
succeeds. -/
theorem claim_C4_witness :
    (handleStopRequest ⟨false, none, none, []⟩
      ⟨some "42", none, false, true⟩).status = "warning" ∧
    (handleStopRequest ⟨false, none, none, []⟩
      ⟨some "42", some "7", false, true⟩).status = "success" :=
  ⟨(claim_C4 ⟨false, none, none, []⟩ ⟨none, none, false, true⟩ "42" "7").1
     (by decide) (by decide),
   (claim_C4 ⟨false, none, none, []⟩ ⟨none, none, false, true⟩ "42" "7").2.1
     (by decide) (by decide)⟩

/-- Counterexample to C4 as stated: stop task (42, 7); the registry entry is
gone; yet a second stop request carrying the explicit pair returns
`success`, not the claimed `warning`. -/
theorem claim_C4_cex :
    (handleStopRequest ⟨false, none, none, [("42", "7")]⟩
      ⟨some "42", some "7", false, true⟩).state.active_sessions = [] ∧
    (handleStopRequest
      (handleStopRequest ⟨false, none, none, [("42", "7")]⟩
        ⟨some "42", some "7", false, true⟩).state
      ⟨some "42", some "7", false, true⟩).status = "success" := by decide

/-- C6 (amended): in the two `user_id` resolution modes (explicit or
looked-up prompt, and all-tasks-of-user), the resolution phase sets the
per-task token's stop flag true in `task_tokens` for every resolved task's
composite key and sets the process-wide fallback `stop` flag true; in
`stop_all` mode it sets the fallback flag but touches no per-task token.
The notification phase preserves `task_tokens`, so the final state's
tokens are the resolution phase's. -/
theorem claim_C6 (st : AppState) (msg : StopMsg) :
    (∀ st1 tasks pidLocal, msg.stop_all = false → truthy msg.user_id = true →
      stopResolve st msg = some (st1, tasks, pidLocal) →
      st1.stop = true ∧
      ∀ up ∈ tasks,
        getKV (st1.task_tokens.getD []) (taskKey up.1 up.2)
          = some ⟨true⟩) ∧
    (∀ st1 tasks pidLocal, msg.stop_all = true →
      stopResolve st msg = some (st1, tasks, pidLocal) →
      st1.stop = true ∧ st1.task_tokens = st.task_tokens) ∧
    (∀ st1 tasks pidLocal, stopResolve st msg = some (st1, tasks, pidLocal) →
      tasks.isEmpty = false →
      (handleStopRequest st msg).state.task_tokens = st1.task_tokens) := by
  refine ⟨?_, ?_, ?_⟩
  · intro st1 tasks pidLocal hsa htu hsr
    unfold stopResolve at hsr
    simp only [hsa, Bool.false_eq_true, if_false, htu, if_true] at hsr
    by_cases hpid : truthy (if !truthy msg.prompt_id
        && (getKV st.active_sessions (msg.user_id.getD "")).isSome
      then getKV st.active_sessions (msg.user_id.getD "")
      else msg.prompt_id) = true
    · rw [if_pos hpid] at hsr
      simp only [Option.some.injEq, Prod.mk.injEq] at hsr
      obtain ⟨h1, h2, h3⟩ := hsr
      subst h1
      subst h2
      constructor
      · rfl
      · intro up hup
        simp only [List.mem_singleton] at hup
        subst hup
        simpa using getKV_setKV_self (st.task_tokens.getD []) _ ⟨true⟩
    · rw [if_neg hpid] at hsr
      simp only [Option.some.injEq, Prod.mk.injEq] at hsr
      obtain ⟨h1, h2, h3⟩ := hsr
      subst h1
      subst h2
      constructor
      · rfl
      · intro up hup
        simpa using getKV_foldl_setKV_true _ (st.task_tokens.getD [])
          (taskKey up.1 up.2) (Or.inl ⟨up, hup, rfl⟩)
  · intro st1 tasks pidLocal hsa hsr
    unfold stopResolve at hsr
    simp only [hsa, if_true, Option.some.injEq, Prod.mk.injEq] at hsr
    obtain ⟨h1, h2, h3⟩ := hsr
    subst h1
    exact ⟨rfl, rfl⟩
  · intro st1 tasks pidLocal hsr hne
    unfold handleStopRequest
    rw [hsr]
    simp only [hne, Bool.false_eq_true, if_false]
    have hfold := (stopFold_spec pidLocal tasks st1 [] []).2.2.2.1
    split
    · simpa using hfold
    · simpa using hfold

/-- Witness for C6: a stop for user 42 whose active prompt is 7 resolves to
the pair (42, 7), sets the token under the composite key `42_7` and sets the
fallback flag. -/
theorem claim_C6_witness :
    (⟨true, none, some [("42_7", (⟨true⟩ : TaskTok))], [("42", "7")]⟩ :
        AppState).stop = true ∧
    ∀ up ∈ [("42", "7")],
      getKV ((⟨true, none, some [("42_7", ⟨true⟩)], [("42", "7")]⟩ :
          AppState).task_tokens.getD []) (taskKey up.1 up.2)
        = some ⟨true⟩ :=
  (claim_C6 ⟨false, none, none, [("42", "7")]⟩
      ⟨some "42", none, false, true⟩).1
    ⟨true, none, some [("42_7", ⟨true⟩)], [("42", "7")]⟩ [("42", "7")]
    (some "7") (by decide) (by decide) (by decide)

/-- Counterexample to C6 as stated: a `stop_all` request resolving to the
active task (u, p) leaves `task_tokens` untouched — no per-task token is
set for the composite key `u_p`. -/
theorem claim_C6_cex :
    (handleStopRequest ⟨false, some ⟨false, none⟩, some [], [("u", "p")]⟩
      ⟨none, none, true, true⟩).resolved = [("u", "p")] ∧
    (handleStopRequest ⟨false, some ⟨false, none⟩, some [], [("u", "p")]⟩
      ⟨none, none, true, true⟩).state.task_tokens = some [] := by decide

/-- C7: the unregister step at the end of `handle_rpc_request` is a no-op
when the registry is entirely empty and deletes the entry when present, but
it raises `KeyError` in exactly the state the claim highlights — other
users' entries remain while this user's entry was already removed by a
concurrent stop — because the guard tests only that the dict is nonempty,
not that the key is present. -/
theorem claim_C7 :
    unregisterStep [] (some "42") = Except.ok [] ∧
    unregisterStep [("42", "7"), ("9", "1")] (some "42")
      = Except.ok [("9", "1")] ∧
    unregisterStep [("7", "1")] (some "42") = Except.error "KeyError" :=
  ⟨rfl, rfl, rfl⟩

/-- C3 (amended): an instruction message with a truthy `user_id`, no truthy
`enhanced_instruction` and a missing or empty `instruction_to_vlm_agent`
makes `handle_rpc_request` return the immediate error with nothing
published — but only after registering the session, so the registry is left
WITH an entry mapping that `user_id` to the message's `prompt_id` (default
`"0"`); the entry is not removed. -/
theorem claim_C3 (sessions : List (String × String)) (msg : RpcMsg)
    (hu : truthy msg.user_id = true)
    (he : truthy msg.enhanced_instruction = false)
    (hi : truthy msg.instruction = false) :
    handleRpcPrefix sessions msg
      = ⟨RpcPrefixOut.errorRes "No instruction provided",
         setKV sessions (msg.user_id.getD "") (msg.prompt_id.getD "0"),
         []⟩ ∧
    getKV (handleRpcPrefix sessions msg).sessions (msg.user_id.getD "")
      = some (msg.prompt_id.getD "0") := by
  have h1 : handleRpcPrefix sessions msg
      = ⟨RpcPrefixOut.errorRes "No instruction provided",
         setKV sessions (msg.user_id.getD "") (msg.prompt_id.getD "0"),
         []⟩ := by
    unfold handleRpcPrefix
    simp [hu, he, hi]
  refine ⟨h1, ?_⟩
  rw [h1]
  exact getKV_setKV_self sessions (msg.user_id.getD "")
    (msg.prompt_id.getD "0")

/-- Witness for C3 at the concrete message of the spec scenario. -/
theorem claim_C3_witness :
    handleRpcPrefix [] ⟨some "42", none, none, none⟩
      = ⟨RpcPrefixOut.errorRes "No instruction provided", [("42", "0")],
         []⟩ ∧
    getKV (handleRpcPrefix [] ⟨some "42", none, none, none⟩).sessions "42"
      = some "0" :=
  claim_C3 [] ⟨some "42", none, none, none⟩ (by decide) (by decide)
    (by decide)

/-- Counterexample to C3 as stated: the same message leaves the session
registry WITH an entry for user 42 (the claim said the registry is left
without one). -/
theorem claim_C3_cex :
    (handleRpcPrefix [] ⟨some "42", none, none, none⟩).out
      = RpcPrefixOut.errorRes "No instruction provided" ∧
    (handleRpcPrefix [] ⟨some "42", none, none, none⟩).published = [] ∧
    ¬getKV (handleRpcPrefix [] ⟨some "42", none, none, none⟩).sessions "42"
      = none := by decide

/-- C2 (amended): when the driving loop of `handle_rpc_request` exits
because a stop flag was observed (before or after the yield, or because the
sampling loop returned `None`), the execution path falls through to the
unconditional terminal publication: it publishes exactly one `completed`
event — and no `error` event; the `stopping` and `stopped` notifications
are published by the stop handler, one pair per resolved task. -/
theorem claim_C2 (env : DriveEnv) (fuel : Nat) (st : AppState)
    (msg : StopMsg) :
    (driveLoop env fuel 0 = DriveExit.stoppedPre ∨
     driveLoop env fuel 0 = DriveExit.genNone ∨
     driveLoop env fuel 0 = DriveExit.stoppedPost →
      handleRpcTail env fuel = [TailEv.completed]) ∧
    (∀ st1 tasks pidLocal, stopResolve st msg = some (st1, tasks, pidLocal) →
      tasks.isEmpty = false →
      (handleStopRequest st msg).events
        = tasks.map (fun up => ⟨"stopping", up.1, up.2⟩)
          ++ tasks.map (fun up => ⟨"stopped", up.1, up.2⟩)) := by
  constructor
  · intro h
    unfold handleRpcTail
    rcases h with h | h | h <;> rw [h]
  · intro st1 tasks pidLocal hsr hne
    unfold handleStopRequest
    rw [hsr]
    simp only [hne, Bool.false_eq_true, if_false]
    have hf := stopFold_spec pidLocal tasks st1 [] []
    rw [hf.2.1, hf.1]
    simp

/-- Witness for C2: a stop observed at the pre-yield check still produces
the `completed` publication; the stop of task (42, 7) publishes the
`stopping`/`stopped` pair. -/
theorem claim_C2_witness :
    handleRpcTail cancelledDriveEnv 5 = [TailEv.completed] ∧
    (handleStopRequest ⟨false, none, none, [("42", "7")]⟩
      ⟨some "42", none, false, true⟩).events
      = [⟨"stopping", "42", "7"⟩, ⟨"stopped", "42", "7"⟩] :=
  ⟨(claim_C2 cancelledDriveEnv 5 ⟨false, none, none, []⟩
      ⟨none, none, false, true⟩).1 (Or.inl (by decide)),
   (claim_C2 cancelledDriveEnv 5 ⟨false, none, none, [("42", "7")]⟩
      ⟨some "42", none, false, true⟩).2
     ⟨true, none, some [("42_7", ⟨true⟩)], [("42", "7")]⟩ [("42", "7")]
     (some "7") (by decide) (by decide)⟩

/-- Counterexample to C2 as stated: a task cancelled via the stop flag (the
driving loop exits at the pre-yield check) nevertheless has a terminal
`completed` event published by the execution path. -/
theorem claim_C2_cex :
    driveLoop cancelledDriveEnv 5 0 = DriveExit.stoppedPre ∧
    handleRpcTail cancelledDriveEnv 5 = [TailEv.completed] := by decide

theorem matchStatus_prefix (c : List Char) (p : List Char × List Char)
    (h : matchStatus c = some p) :
    (chars "Status:").isPrefixOf c = true := by
  unfold matchStatus at h
  by_cases hp : (chars "Status:").isPrefixOf c = true
  · exact hp
  · rw [if_neg hp] at h
    exact absurd h (by simp)

theorem prefix_nonempty (p : String) (r : List Char)
    (hne : ¬(chars p) = [])
    (h : (chars p).isPrefixOf r = true) : r.isEmpty = false := by
  cases r with
  | nil =>
    cases hc : chars p with
    | nil => exact absurd hc hne
    | cons a l => rw [hc] at h; simp [List.isPrefixOf] at h
  | cons c r2 => rfl

theorem notAnalysis_of_next (r : List Char)
    (h : (chars "Next action:").isPrefixOf r = true) :
    (chars "Analysis:").isPrefixOf r = false := by
  have hn : chars "Next action:" = 'N' :: chars "ext action:" := by decide
  have ha : chars "Analysis:" = 'A' :: chars "nalysis:" := by decide
  cases r with
  | nil => rw [hn] at h; simp [List.isPrefixOf] at h
  | cons c r2 =>
    rw [hn] at h
    simp only [List.isPrefixOf, Bool.and_eq_true, beq_iff_eq] at h
    obtain ⟨h1, _⟩ := h
    rw [ha, ← h1]
    simp [List.isPrefixOf]

/-- C10: a rendered analysis message whose content carries a `Status:` line
whose status word uppercases to `FAILED` is extracted into no Extracted
Response Record — appended neither to the persisted messages array nor
published; an analysis whose status word is anything else (SUCCESS,
FIRST_ACTION, or unrecognised) is extracted with the status prefix stripped
and published as exactly one `in_progress` event; and every next-action
message is extracted and published as exactly one `in_progress` event. -/
theorem claim_C10 (jsonParse : List Char → Option String) (r : List Char) :
    (∀ w rest, (chars "Analysis:").isPrefixOf r = true →
      matchStatus (stripChars (afterColon r)) = some (w, rest) →
      upperChars w = chars "FAILED" →
      (outputCallbackStep jsonParse r).extractedRec = none ∧
      (outputCallbackStep jsonParse r).published = []) ∧
    (∀ w rest, (chars "Analysis:").isPrefixOf r = true →
      matchStatus (stripChars (afterColon r)) = some (w, rest) →
      ¬upperChars w = chars "FAILED" →
      (outputCallbackStep jsonParse r).extractedRec
        = some ⟨"analysis", ContentV.str (stripChars rest)⟩ ∧
      (outputCallbackStep jsonParse r).published
        = [⟨"analysis", ContentV.str (stripChars rest)⟩]) ∧
    ((chars "Next action:").isPrefixOf r = true →
      (outputCallbackStep jsonParse r).extractedRec
        = some ⟨"next_action",
            naContent jsonParse (stripChars (afterColon r))⟩ ∧
      (outputCallbackStep jsonParse r).published
        = [⟨"next_action", naContent jsonParse (stripChars (afterColon r))⟩])
    := by
  refine ⟨?_, ?_, ?_⟩
  · intro w rest hpref hm hfa
    have hne : r.isEmpty = false := prefix_nonempty "Analysis:" r
      (by decide) hpref
    have hsp := matchStatus_prefix _ _ hm
    have hfb : (upperChars w == chars "FAILED") = true := beq_iff_eq.mpr hfa
    unfold outputCallbackStep
    simp [hne, hpref, hsp, hm, hfb]
  · intro w rest hpref hm hfa
    have hne : r.isEmpty = false := prefix_nonempty "Analysis:" r
      (by decide) hpref
    have hsp := matchStatus_prefix _ _ hm
    have hfb : (upperChars w == chars "FAILED") = false :=
      beq_eq_false_iff_ne.mpr hfa
    unfold outputCallbackStep
    simp [hne, hpref, hsp, hm, hfb, cbExtract]
  · intro hpref
    have hne : r.isEmpty = false := prefix_nonempty "Next action:" r
      (by decide) hpref
    have hnot := notAnalysis_of_next r hpref
    unfold outputCallbackStep
    simp [hne, hpref, hnot, cbExtract]

/-- Witness for C10 on three concrete rendered messages: a FAILED analysis
is skipped, a SUCCESS analysis is extracted with the status prefix
stripped, and a next-action message is extracted. -/
theorem claim_C10_witness :
    ((outputCallbackStep (fun _ => none)
        (chars "Analysis: Status: FAILED boom")).extractedRec = none ∧
     (outputCallbackStep (fun _ => none)
        (chars "Analysis: Status: FAILED boom")).published = []) ∧
    ((outputCallbackStep (fun _ => none)
        (chars "Analysis: Status: SUCCESS done")).extractedRec
        = some ⟨"analysis", ContentV.str (chars "done")⟩ ∧
     (outputCallbackStep (fun _ => none)
        (chars "Analysis: Status: SUCCESS done")).published
        = [⟨"analysis", ContentV.str (chars "done")⟩]) ∧
    ((outputCallbackStep (fun _ => none)
        (chars "Next action: click")).extractedRec
        = some ⟨"next_action", ContentV.str (chars "click")⟩ ∧
     (outputCallbackStep (fun _ => none)
        (chars "Next action: click")).published
        = [⟨"next_action", ContentV.str (chars "click")⟩]) :=
  ⟨(claim_C10 (fun _ => none) (chars "Analysis: Status: FAILED boom")).1
     (chars "FAILED") (chars " boom") (by decide) (by decide) (by decide),
   (claim_C10 (fun _ => none) (chars "Analysis: Status: SUCCESS done")).2.1
     (chars "SUCCESS") (chars " done") (by decide) (by decide) (by decide),
   (claim_C10 (fun _ => none) (chars "Next action: click")).2.2 (by decide)⟩
